import Mathlib

/-
Verification of the quiz-session core of a single-page exam application.

The core under study is the quiz session logic of
src/frontend/src/pages/GenerateExam.jsx: a countdown timer driven by a
once-per-second interval (lines 220-226), a time-up detection effect that
auto-finalizes the session (lines 229-247), manual submission
(handleSubmitQuiz, lines 257-273), and answer selection
(handleAnswerSelect, lines 249-255).

The scoring expression in the source is
  Math.round((correctCount / quizData.questions.length) * 100)
evaluated in JavaScript, i.e. in IEEE-754 binary64 arithmetic.  To settle
claims about rounding faithfully, the division and multiplication are
modelled as correctly rounded (round to nearest, ties to even) operations
on exact rationals, realised below by executable functions on natural
numbers (mantissa / binade computations).  All quantities that arise are
strictly positive and far inside the normal range of binary64, so neither
subnormals nor overflow need to be represented; 0/0 (the score of an empty
question set) is NaN and is modelled by a dedicated constructor.
-/

namespace QuizCore

/-- Round the fraction a/b (with b > 0) to the nearest natural number,
ties to even: the rounding used by binary64 arithmetic. -/
def rneND (a b : ℕ) : ℕ :=
  let q := a / b
  let r := a % b
  if 2 * r < b then q
  else if b < 2 * r then q + 1
  else if q % 2 = 0 then q else q + 1

/-- Fuel-driven base-2 logarithm (structural recursion so that kernel
reduction works on concrete inputs). -/
def log2fuel : ℕ → ℕ → ℕ
  | 0, _ => 0
  | f + 1, n => if n ≤ 1 then 0 else log2fuel f (n / 2) + 1

/-- Floor of the base-2 logarithm of a natural number. -/
def nlog2 (n : ℕ) : ℕ := log2fuel n n

/-- Decides whether 2^(k-j) ≤ a/b, where k, j are natural numbers and the
exponent k - j is taken in ℤ. -/
def ge2pow (a b k j : ℕ) : Bool :=
  if j ≤ k then decide (b * 2 ^ (k - j) ≤ a) else decide (b ≤ a * 2 ^ (j - k))

/-- Floor of the base-2 logarithm of the positive fraction a/b, as an
integer (the binade exponent of a/b). -/
def ilog2 (a b : ℕ) : ℤ :=
  let k := nlog2 a
  let j := nlog2 b
  if ge2pow a b k j then (k : ℤ) - j else (k : ℤ) - j - 1

/-- The 53-bit mantissa of the binary64 value nearest to a/b (a, b ≥ 1):
round to nearest, ties to even, of (a/b) · 2^(52 - ilog2 a b). -/
def mant (a b : ℕ) : ℕ :=
  let e := ilog2 a b
  if e ≤ 52 then rneND (a * 2 ^ (52 - e).toNat) b
  else rneND a (b * 2 ^ (e - 52).toNat)

/-- Writes the dyadic value m · 2^e as a fraction (numerator, denominator)
of natural numbers, with the denominator a power of two. -/
def dyadicFrac (m : ℕ) (e : ℤ) : ℕ × ℕ :=
  if 0 ≤ e then (m * 2 ^ e.toNat, 1) else (m, 2 ^ (-e).toNat)

/-- JavaScript Math.round on the nonnegative dyadic value m · 2^(e-52):
the floor of the value plus one half (nearest integer, ties toward +∞). -/
def jsRoundPos (m : ℕ) (e : ℤ) : ℕ :=
  let p := dyadicFrac m (e - 52)
  (2 * p.1 + p.2) / (2 * p.2)

/-- Math.round((c / n) * 100) evaluated in binary64 arithmetic, for
1 ≤ n: the division and the multiplication are each correctly rounded
(nearest, ties to even), then Math.round is applied to the resulting
exact dyadic value. -/
def jsScoreND (c n : ℕ) : ℕ :=
  if c = 0 then 0
  else
    let m1 := mant c n
    let e1 := ilog2 c n
    let p := dyadicFrac (100 * m1) (e1 - 52)
    jsRoundPos (mant p.1 p.2) (ilog2 p.1 p.2)

/-- A JavaScript number stored by setScore: either NaN (from scoring an
empty question set, 0/0) or a nonnegative integer percentage. -/
inductive ScoreVal where
  | nan : ScoreVal
  | score : ℕ → ScoreVal
deriving DecidableEq, Repr

/-- The full scoring arithmetic of the source: NaN when the question count
is zero (JavaScript 0/0), otherwise the binary64 rounded percentage. -/
def jsScoreNum (c n : ℕ) : ScoreVal :=
  if n = 0 then ScoreVal.nan else ScoreVal.score (jsScoreND c n)

/-- The boolean finalScore >= 50 of the source (NaN compares false). -/
def passedOf : ScoreVal → Bool
  | ScoreVal.nan => false
  | ScoreVal.score k => decide (50 ≤ k)

lemma log2fuel_spec : ∀ f n, 1 ≤ n → n ≤ f →
    2 ^ log2fuel f n ≤ n ∧ n < 2 ^ (log2fuel f n + 1) := by
  intro f
  induction f with
  | zero => intro n h1 h2; omega
  | succ f ih =>
    intro n h1 h2
    by_cases hsmall : n ≤ 1
    · have hn1 : n = 1 := le_antisymm hsmall h1
      simp [log2fuel, hn1]
    · have h2le : 2 ≤ n := by omega
      have hdiv1 : 1 ≤ n / 2 := Nat.one_le_div_iff (by omega) |>.mpr h2le
      have hdivf : n / 2 ≤ f := by omega
      have := ih (n / 2) hdiv1 hdivf
      have hrec : log2fuel (f + 1) n = log2fuel f (n / 2) + 1 := by
        simp [log2fuel, hsmall]
      rw [hrec]
      set k := log2fuel f (n / 2) with hk
      have hlo : 2 ^ k ≤ n / 2 := this.1
      have hhi : n / 2 < 2 ^ (k + 1) := this.2
      have hmod : n % 2 < 2 := Nat.mod_lt _ (by omega)
      have hdm : 2 * (n / 2) + n % 2 = n := Nat.div_add_mod n 2
      constructor
      · calc 2 ^ (k + 1) = 2 * 2 ^ k := by ring
        _ ≤ 2 * (n / 2) := by omega
        _ ≤ n := by omega
      · calc n = 2 * (n / 2) + n % 2 := hdm.symm
        _ < 2 * 2 ^ (k + 1) := by omega
        _ = 2 ^ (k + 1 + 1) := by ring

lemma nlog2_spec (n : ℕ) (h : 1 ≤ n) :
    2 ^ nlog2 n ≤ n ∧ n < 2 ^ (nlog2 n + 1) :=
  log2fuel_spec n n h le_rfl

lemma rneND_bounds (a b : ℕ) (hb : 1 ≤ b) :
    2 * a ≤ 2 * b * rneND a b + b ∧ 2 * b * rneND a b ≤ 2 * a + b := by
  have hdm : b * (a / b) + a % b = a := Nat.div_add_mod a b
  have hlt : a % b < b := Nat.mod_lt _ (by omega)
  unfold rneND
  set q := a / b with hq
  set r := a % b with hr
  by_cases h1 : 2 * r < b
  · simp only [h1, if_true]
    constructor
    · nlinarith
    · nlinarith
  · simp only [h1, if_false]
    by_cases h2 : b < 2 * r
    · simp only [h2, if_true]
      constructor
      · nlinarith
      · nlinarith
    · have htie : 2 * r = b := by omega
      simp only [h2, if_false]
      by_cases h3 : q % 2 = 0
      · simp only [h3, if_true]
        constructor
        · nlinarith
        · nlinarith
      · simp only [h3, if_false]
        constructor
        · nlinarith
        · nlinarith

/-- Two-sided rational bound for round-to-nearest-ties-even of a/b:
it lies within one half of a/b. -/
lemma rneND_close (a b : ℕ) (hb : 1 ≤ b) :
    (a : ℚ) / b - 1 / 2 ≤ rneND a b ∧ (rneND a b : ℚ) ≤ (a : ℚ) / b + 1 / 2 := by
  obtain ⟨h1, h2⟩ := rneND_bounds a b hb
  have hbq : (0 : ℚ) < b := by exact_mod_cast hb
  have c1 : (2 * a : ℚ) ≤ 2 * b * rneND a b + b := by exact_mod_cast h1
  have c2 : (2 * b * rneND a b : ℚ) ≤ 2 * a + b := by exact_mod_cast h2
  constructor
  · rw [div_sub' _ _ _ hbq.ne', div_le_iff₀ hbq]
    nlinarith
  · rw [div_add' _ _ _ hbq.ne', le_div_iff₀ hbq]
    nlinarith

lemma ge2pow_iff (a b k j : ℕ) (hb : 1 ≤ b) :
    ge2pow a b k j = true ↔ (2 : ℚ) ^ ((k : ℤ) - j) ≤ (a : ℚ) / b := by
  have hbq : (0 : ℚ) < b := by exact_mod_cast hb
  unfold ge2pow
  by_cases hjk : j ≤ k
  · have hcast : ((k : ℤ) - j) = ((k - j : ℕ) : ℤ) := by omega
    rw [if_pos hjk, decide_eq_true_eq, hcast, zpow_natCast, le_div_iff₀ hbq]
    constructor
    · intro h
      calc (2 : ℚ) ^ (k - j) * b = ((b * 2 ^ (k - j) : ℕ) : ℚ) := by push_cast; ring
        _ ≤ a := by exact_mod_cast h
    · intro h
      have : ((b * 2 ^ (k - j) : ℕ) : ℚ) ≤ a := by push_cast; linarith
      exact_mod_cast this
  · have hcast : ((k : ℤ) - j) = -((j - k : ℕ) : ℤ) := by omega
    have hppos : (0 : ℚ) < 2 ^ (j - k) := by positivity
    rw [if_neg hjk, decide_eq_true_eq, hcast, zpow_neg, zpow_natCast,
      inv_eq_one_div, div_le_div_iff₀ hppos hbq, one_mul]
    constructor
    · intro h
      calc (b : ℚ) ≤ ((a * 2 ^ (j - k) : ℕ) : ℚ) := by exact_mod_cast h
        _ = a * 2 ^ (j - k) := by push_cast; ring
    · intro h
      have : (b : ℚ) ≤ ((a * 2 ^ (j - k) : ℕ) : ℚ) := by push_cast; linarith
      exact_mod_cast this

lemma ilog2_spec (a b : ℕ) (ha : 1 ≤ a) (hb : 1 ≤ b) :
    (2 : ℚ) ^ ilog2 a b ≤ (a : ℚ) / b ∧ (a : ℚ) / b < 2 ^ (ilog2 a b + 1) := by
  have hbq : (0 : ℚ) < b := by exact_mod_cast hb
  obtain ⟨hak, hak1⟩ := nlog2_spec a ha
  obtain ⟨hbj, hbj1⟩ := nlog2_spec b hb
  set k := nlog2 a with hk
  set j := nlog2 b with hj
  have hakq : (2 : ℚ) ^ k ≤ a := by exact_mod_cast hak
  have hak1q : (a : ℚ) < 2 ^ (k + 1) := by exact_mod_cast hak1
  have hbjq : (2 : ℚ) ^ j ≤ b := by exact_mod_cast hbj
  have hbj1q : (b : ℚ) < 2 ^ (j + 1) := by exact_mod_cast hbj1
  unfold ilog2
  by_cases hg : ge2pow a b k j = true
  · rw [if_pos hg]
    refine ⟨(ge2pow_iff a b k j hb).mp hg, ?_⟩
    have hkey : (a : ℚ) * 2 ^ j < 2 ^ (k + 1) * b := by nlinarith
    have h2j : (0 : ℚ) < 2 ^ j := by positivity
    have hdiv : (a : ℚ) / b < (2 : ℚ) ^ (k + 1) / 2 ^ j :=
      (div_lt_div_iff₀ hbq h2j).mpr hkey
    have hident : (2 : ℚ) ^ (k + 1) / 2 ^ j = 2 ^ ((k : ℤ) - j + 1) := by
      rw [show ((k : ℤ) - j + 1) = ((k + 1 : ℕ) : ℤ) - ((j : ℕ) : ℤ) by omega,
        zpow_sub₀ (two_ne_zero), zpow_natCast, zpow_natCast]
    rw [← hident]; exact hdiv
  · rw [if_neg hg]
    have hup : (a : ℚ) / b < 2 ^ ((k : ℤ) - j) := by
      by_contra hcon
      exact hg ((ge2pow_iff a b k j hb).mpr (le_of_not_lt hcon))
    refine ⟨?_, by rw [show (k : ℤ) - j - 1 + 1 = (k : ℤ) - j by ring]; exact hup⟩
    have h2j1 : (0 : ℚ) < 2 ^ (j + 1) := by positivity
    have hkey : (2 : ℚ) ^ k * b ≤ a * 2 ^ (j + 1) := by nlinarith
    have hdiv : (2 : ℚ) ^ k / 2 ^ (j + 1) ≤ (a : ℚ) / b :=
      (div_le_div_iff₀ h2j1 hbq).mpr hkey
    have hident : (2 : ℚ) ^ k / 2 ^ (j + 1) = 2 ^ ((k : ℤ) - j - 1) := by
      rw [show ((k : ℤ) - j - 1) = ((k : ℕ) : ℤ) - ((j + 1 : ℕ) : ℤ) by omega,
        zpow_sub₀ (two_ne_zero), zpow_natCast, zpow_natCast]
    rw [← hident]; exact hdiv

/-- The correctly rounded binary64 value of the fraction a/b, namely
mant a b · 2^(ilog2 a b - 52), has relative error at most 2^-53. -/
lemma mant_close (a b : ℕ) (ha : 1 ≤ a) (hb : 1 ≤ b) :
    (a : ℚ) / b * (1 - 1 / 2 ^ 53) ≤ (mant a b : ℚ) * 2 ^ (ilog2 a b - 52) ∧
    (mant a b : ℚ) * 2 ^ (ilog2 a b - 52) ≤ (a : ℚ) / b * (1 + 1 / 2 ^ 53) := by
  have hbq : (0 : ℚ) < b := by exact_mod_cast hb
  have haq : (0 : ℚ) < a := by exact_mod_cast ha
  obtain ⟨hlo, hhi⟩ := ilog2_spec a b ha hb
  set e := ilog2 a b with he
  have hx : ∃ A B : ℕ, 1 ≤ B ∧ mant a b = rneND A B ∧
      (A : ℚ) / B = (a : ℚ) / b * 2 ^ ((52 : ℤ) - e) := by
    by_cases hle : e ≤ 52
    · refine ⟨a * 2 ^ (52 - e).toNat, b, hb, by rw [mant, ← he, if_pos hle], ?_⟩
      have h52 : (((52 - e).toNat : ℕ) : ℤ) = 52 - e := Int.toNat_of_nonneg (by omega)
      have hpow : ((2 : ℚ) ^ ((52 - e).toNat : ℕ)) = (2 : ℚ) ^ ((52 : ℤ) - e) := by
        rw [← zpow_natCast, h52]
      push_cast
      rw [hpow]; ring
    · refine ⟨a, b * 2 ^ (e - 52).toNat, ?_, by rw [mant, ← he, if_neg hle], ?_⟩
      · exact Nat.one_le_iff_ne_zero.mpr (Nat.mul_ne_zero (by omega) (by positivity))
      · have h52 : (((e - 52).toNat : ℕ) : ℤ) = e - 52 := Int.toNat_of_nonneg (by omega)
        have hpow : ((2 : ℚ) ^ ((e - 52).toNat : ℕ)) = (2 : ℚ) ^ ((e : ℤ) - 52) := by
          rw [← zpow_natCast, h52]
        have hpos : (0 : ℚ) < (2 : ℚ) ^ ((e : ℤ) - 52) := by positivity
        push_cast
        rw [hpow, show (52 : ℤ) - e = -((e : ℤ) - 52) by ring, zpow_neg]
        field_simp
  obtain ⟨A, B, hB, hmm, hAB⟩ := hx
  obtain ⟨hcl, hch⟩ := rneND_close A B hB
  have hp1 : (0 : ℚ) < (2 : ℚ) ^ ((e : ℤ) - 52) := by positivity
  have hxid : (a : ℚ) / b * 2 ^ ((52 : ℤ) - e) * 2 ^ ((e : ℤ) - 52) = (a : ℚ) / b := by
    rw [mul_assoc, ← zpow_add₀ (two_ne_zero : (2 : ℚ) ≠ 0)]
    norm_num
  have hhalf : (1 : ℚ) / 2 * 2 ^ ((e : ℤ) - 52) = 2 ^ ((e : ℤ) - 53) := by
    rw [show (e : ℤ) - 53 = -1 + ((e : ℤ) - 52) by ring, zpow_add₀ (two_ne_zero : (2 : ℚ) ≠ 0)]
    norm_num
  have h53 : (2 : ℚ) ^ ((e : ℤ) - 53) ≤ (a : ℚ) / b / 2 ^ 53 := by
    have hE : (2 : ℚ) ^ ((e : ℤ) - 53) = (2 : ℚ) ^ (e : ℤ) / 2 ^ (53 : ℤ) := by
      rw [zpow_sub₀ (two_ne_zero : (2 : ℚ) ≠ 0)]
    have hE2 : ((2 : ℚ) ^ (53 : ℤ)) = (2 : ℚ) ^ (53 : ℕ) := by norm_num
    rw [hE, hE2]
    gcongr
  rw [hmm]
  constructor
  · have h1 : ((A : ℚ) / B - 1 / 2) * 2 ^ ((e : ℤ) - 52) ≤ (rneND A B : ℚ) * 2 ^ ((e : ℤ) - 52) :=
      mul_le_mul_of_nonneg_right hcl hp1.le
    have h2 : ((A : ℚ) / B - 1 / 2) * 2 ^ ((e : ℤ) - 52) = (a : ℚ) / b - 2 ^ ((e : ℤ) - 53) := by
      rw [sub_mul, hAB, hxid, hhalf]
    rw [h2] at h1
    nlinarith
  · have h1 : (rneND A B : ℚ) * 2 ^ ((e : ℤ) - 52) ≤ ((A : ℚ) / B + 1 / 2) * 2 ^ ((e : ℤ) - 52) :=
      mul_le_mul_of_nonneg_right hch hp1.le
    have h2 : ((A : ℚ) / B + 1 / 2) * 2 ^ ((e : ℤ) - 52) = (a : ℚ) / b + 2 ^ ((e : ℤ) - 53) := by
      rw [add_mul, hAB, hxid, hhalf]
    rw [h2] at h1
    nlinarith

lemma dyadic_val (m : ℕ) (e : ℤ) :
    1 ≤ (dyadicFrac m e).2 ∧
    ((dyadicFrac m e).1 : ℚ) / (dyadicFrac m e).2 = (m : ℚ) * (2 : ℚ) ^ e ∧
    (1 ≤ m → 1 ≤ (dyadicFrac m e).1) := by
  unfold dyadicFrac
  by_cases hpos : 0 ≤ e
  · rw [if_pos hpos]
    have hcast : ((e.toNat : ℕ) : ℤ) = e := Int.toNat_of_nonneg hpos
    have hpow : ((2 : ℚ) ^ (e.toNat : ℕ)) = (2 : ℚ) ^ e := by
      rw [← zpow_natCast, hcast]
    refine ⟨le_rfl, ?_, ?_⟩
    · push_cast
      rw [hpow]; ring
    · intro hm
      exact Nat.one_le_iff_ne_zero.mpr (Nat.mul_ne_zero (by omega) (by positivity))
  · rw [if_neg hpos]
    have hcast : (((-e).toNat : ℕ) : ℤ) = -e := Int.toNat_of_nonneg (by omega)
    have hpow : ((2 : ℚ) ^ ((-e).toNat : ℕ)) = (2 : ℚ) ^ (-e : ℤ) := by
      rw [← zpow_natCast, hcast]
    have hne : ((2 : ℚ) ^ (-e : ℤ)) ≠ 0 := by positivity
    refine ⟨Nat.one_le_two_pow, ?_, fun hm => hm⟩
    push_cast
    rw [hpow, zpow_neg, div_eq_mul_inv, inv_inv]

/-- Math.round of the nonnegative dyadic value m · 2^(e-52) differs from
it by at most one half. -/
lemma jsRoundPos_bounds (m : ℕ) (e : ℤ) :
    (m : ℚ) * 2 ^ (e - 52) - 1 / 2 ≤ jsRoundPos m e ∧
    (jsRoundPos m e : ℚ) ≤ (m : ℚ) * 2 ^ (e - 52) + 1 / 2 := by
  obtain ⟨hb, hval, _⟩ := dyadic_val m (e - 52)
  set a := (dyadicFrac m (e - 52)).1 with hA
  set b := (dyadicFrac m (e - 52)).2 with hB
  have hbq : (0 : ℚ) < b := by exact_mod_cast hb
  have hjr : jsRoundPos m e = (2 * a + b) / (2 * b) := rfl
  have hdm := Nat.div_add_mod (2 * a + b) (2 * b)
  have hmod : (2 * a + b) % (2 * b) < 2 * b := Nat.mod_lt _ (by omega)
  set q := (2 * a + b) / (2 * b) with hq
  set r := (2 * a + b) % (2 * b) with hr
  have hdmq : (2 * b * q + r : ℚ) = 2 * a + b := by exact_mod_cast hdm
  have hmodq : (r : ℚ) < 2 * b := by exact_mod_cast hmod
  have hrq : (0 : ℚ) ≤ r := by positivity
  have hcancel : (a : ℚ) / b * b = a := div_mul_cancel₀ _ hbq.ne'
  rw [hjr, ← hval]
  constructor
  · nlinarith
  · nlinarith

/-- The mantissa of a positive fraction is positive. -/
lemma mant_pos (a b : ℕ) (ha : 1 ≤ a) (hb : 1 ≤ b) : 1 ≤ mant a b := by
  by_contra hcon
  have hz : mant a b = 0 := by omega
  have hbq : (0 : ℚ) < b := by exact_mod_cast hb
  have haq : (0 : ℚ) < a := by exact_mod_cast ha
  have hlow := (mant_close a b ha hb).1
  rw [hz] at hlow
  simp only [Nat.cast_zero, zero_mul] at hlow
  nlinarith [div_pos haq hbq]

/-- The binary64 evaluation of Math.round((c/n)*100) never exceeds 100
when c ≤ n. -/
lemma jsScoreND_le100 (c n : ℕ) (hn : 1 ≤ n) (hcn : c ≤ n) :
    jsScoreND c n ≤ 100 := by
  by_cases hc : c = 0
  · simp [jsScoreND, hc]
  · have hc1 : 1 ≤ c := by omega
    have hnq : (0 : ℚ) < n := by exact_mod_cast hn
    have hx0 : (c : ℚ) / n ≤ 1 := by
      rw [div_le_one hnq]; exact_mod_cast hcn
    have hx0pos : (0 : ℚ) < (c : ℚ) / n :=
      div_pos (by exact_mod_cast hc1) hnq
    obtain ⟨hd1lo, hd1hi⟩ := mant_close c n hc1 hn
    set m1 := mant c n with hm1
    set e1 := ilog2 c n with he1
    have hd1pos : (0 : ℚ) < (m1 : ℚ) * 2 ^ (e1 - 52) := by nlinarith
    have hd1le : (m1 : ℚ) * 2 ^ (e1 - 52) ≤ 1 + 1 / 2 ^ 53 := by nlinarith
    have hm1pos : 1 ≤ m1 := mant_pos c n hc1 hn
    obtain ⟨hb2, hval2, ha2of⟩ := dyadic_val (100 * m1) (e1 - 52)
    set a2 := (dyadicFrac (100 * m1) (e1 - 52)).1 with hA2
    set b2 := (dyadicFrac (100 * m1) (e1 - 52)).2 with hB2
    have ha2 : 1 ≤ a2 := ha2of (by omega)
    have hval2q : (a2 : ℚ) / b2 = 100 * ((m1 : ℚ) * 2 ^ (e1 - 52)) := by
      rw [hval2]; push_cast; ring
    obtain ⟨hd2lo, hd2hi⟩ := mant_close a2 b2 ha2 hb2
    set m2 := mant a2 b2 with hm2
    set e2 := ilog2 a2 b2 with he2
    have hd2hi2 : (m2 : ℚ) * 2 ^ (e2 - 52) ≤
        100 * (1 + 1 / 2 ^ 53) * (1 + 1 / 2 ^ 53) := by
      have hub : (a2 : ℚ) / b2 ≤ 100 * (1 + 1 / 2 ^ 53) := by
        rw [hval2q]; nlinarith
      have hnn : (0 : ℚ) ≤ (a2 : ℚ) / b2 := by positivity
      nlinarith
    obtain ⟨_, hjr⟩ := jsRoundPos_bounds m2 e2
    have hfin : (jsRoundPos m2 e2 : ℚ) < 101 := by nlinarith
    have hnat : jsRoundPos m2 e2 < 101 := by exact_mod_cast hfin
    have hgoal : jsRoundPos m2 e2 ≤ 100 := by omega
    show (if c = 0 then 0 else jsRoundPos
      (mant (dyadicFrac (100 * mant c n) (ilog2 c n - 52)).1
        (dyadicFrac (100 * mant c n) (ilog2 c n - 52)).2)
      (ilog2 (dyadicFrac (100 * mant c n) (ilog2 c n - 52)).1
        (dyadicFrac (100 * mant c n) (ilog2 c n - 52)).2)) ≤ 100
    rw [if_neg hc]
    exact hgoal

/-- The whitespace set stripped by JavaScript String.prototype.trim
(WhiteSpace and LineTerminator code points of the ECMAScript spec). -/
def jsWhitespace (c : Char) : Bool :=
  decide (c.toNat = 9 ∨ c.toNat = 10 ∨ c.toNat = 11 ∨ c.toNat = 12 ∨
    c.toNat = 13 ∨ c.toNat = 32 ∨ c.toNat = 160 ∨ c.toNat = 5760 ∨
    (8192 ≤ c.toNat ∧ c.toNat ≤ 8202) ∨ c.toNat = 8232 ∨ c.toNat = 8233 ∨
    c.toNat = 8239 ∨ c.toNat = 8287 ∨ c.toNat = 12288 ∨ c.toNat = 65279)

/-- JavaScript String.prototype.trim: strip leading and trailing
whitespace. -/
def jsTrim (s : String) : String :=
  String.mk (((s.data.dropWhile jsWhitespace).reverse.dropWhile jsWhitespace).reverse)

/-- One quiz question as delivered by the generation response: an object
with fields id, question (the prompt), options and answer.  The answer
field may be absent in malformed upstream data, hence Option. -/
structure Question where
  id : ℕ
  question : String
  options : List String
  answer : Option String
deriving DecidableEq, Repr

/-- The userAnswers object: entries mapping a question id to the selected
option string.  Lookup takes the first entry for a key; insertion replaces
the entry for that key, as the object spread { ...prev, [id]: option }
does. -/
abbrev AnswerMap := List (ℕ × String)

/-- userAnswers[qid]: the stored selection, if any. -/
def lookupAnswer (am : AnswerMap) (k : ℕ) : Option String :=
  (am.find? (fun p => p.fst == k)).map Prod.snd

/-- The update { ...prev, [questionId]: option }: the entry for the id is
replaced, all other keys keep their values. -/
def insertAnswer (am : AnswerMap) (k : ℕ) (v : String) : AnswerMap :=
  (k, v) :: am.filter (fun p => !(p.fst == k))

/-- The per-question comparison of handleSubmitQuiz
(GenerateExam.jsx line 263): userAnswers[q.id]?.trim() === q.answer?.trim().
An absent map entry or absent answer field makes optional chaining yield
undefined; undefined === undefined is true, undefined === string is
false. -/
def isCorrectSubmit (am : AnswerMap) (q : Question) : Bool :=
  match lookupAnswer am q.id, q.answer with
  | some u, some a => jsTrim u == jsTrim a
  | some _, none => false
  | none, some _ => false
  | none, none => true

/-- The correctCount accumulation of handleSubmitQuiz
(GenerateExam.jsx lines 260-266). -/
def correctCountSubmit (qs : List Question) (am : AnswerMap) : ℕ :=
  qs.foldl (fun acc q => if isCorrectSubmit am q then acc + 1 else acc) 0

/-- The finalScore of handleSubmitQuiz (GenerateExam.jsx line 267):
Math.round((correctCount / quizData.questions.length) * 100). -/
def computeScoreSubmit (qs : List Question) (am : AnswerMap) : ScoreVal :=
  jsScoreNum (correctCountSubmit qs am) qs.length

/-- The per-question comparison of the time-up detection effect
(GenerateExam.jsx line 236), textually identical to the submit one. -/
def isCorrectTimeout (am : AnswerMap) (q : Question) : Bool :=
  match lookupAnswer am q.id, q.answer with
  | some u, some a => jsTrim u == jsTrim a
  | some _, none => false
  | none, some _ => false
  | none, none => true

/-- The correctCount accumulation of the time-up detection effect
(GenerateExam.jsx lines 234-239). -/
def correctCountTimeout (qs : List Question) (am : AnswerMap) : ℕ :=
  qs.foldl (fun acc q => if isCorrectTimeout am q then acc + 1 else acc) 0

/-- The finalScore of the time-up detection effect
(GenerateExam.jsx line 240). -/
def computeScoreTimeout (qs : List Question) (am : AnswerMap) : ScoreVal :=
  jsScoreNum (correctCountTimeout qs am) qs.length

/-- The response validation of handleGenerate (GenerateExam.jsx lines
186-190): !parsedQuestions.questions || !Array.isArray(...) rejects only
an absent or non-array questions field; an empty array passes. -/
def questionsFieldValid : Option (List Question) → Bool
  | none => false
  | some _ => true

/-- The component state of GenerateExam relevant to the quiz session:
quizData, userAnswers, score (null until finalization; the stored number
may be NaN), timeLeft and isActive. -/
structure QuizState where
  quizData : Option (List Question)
  userAnswers : AnswerMap
  score : Option ScoreVal
  timeLeft : ℤ
  isActive : Bool
deriving DecidableEq, Repr

/-- The state on page load: no quiz, no answers, no score, timer idle. -/
def initialState : QuizState :=
  { quizData := none, userAnswers := [], score := none,
    timeLeft := 0, isActive := false }

/-- handleAnswerSelect (GenerateExam.jsx lines 249-255): a no-op once the
score is set, otherwise overwrites the entry for the question id. -/
def handleAnswerSelect (questionId : ℕ) (opt : String) (s : QuizState) : QuizState :=
  if s.score ≠ none then s
  else { s with userAnswers := insertAnswer s.userAnswers questionId opt }

/-- handleSubmitQuiz (GenerateExam.jsx lines 257-273): early return when
quizData is null, otherwise deactivate the timer and store the computed
score. -/
def handleSubmitQuiz (s : QuizState) : QuizState :=
  match s.quizData with
  | none => s
  | some qs =>
      { s with isActive := false,
               score := some (computeScoreSubmit qs s.userAnswers) }

/-- The time-up detection effect (GenerateExam.jsx lines 229-247).  The
guard transcribes the early return
if (!isActive || timeLeft > 0 || score !== null) return; then
setIsActive(false) runs, and the scoring only when quizData is present. -/
def timeUpEffect (s : QuizState) : QuizState :=
  if s.isActive = true ∧ s.timeLeft ≤ 0 ∧ s.score = none then
    match s.quizData with
    | some qs =>
        { s with isActive := false,
                 score := some (computeScoreTimeout qs s.userAnswers) }
    | none => { s with isActive := false }
  else s

/-- One firing of the interval callback (GenerateExam.jsx lines 220-226):
setTimeLeft(prev => prev - 1).  The interval is mounted only while
isActive is true and is cleared synchronously when it turns false, so a
tick delivered while inactive has no effect. -/
def tick (s : QuizState) : QuizState :=
  if s.isActive then { s with timeLeft := s.timeLeft - 1 } else s

/-- The user-interface events that drive the session state. -/
inductive Event where
  | tick : Event
  | submit : Event
  | select : ℕ → String → Event
  | generate : List Question → Event
  | retake : Event
  | newAssessment : Event

/-- The handler invoked by each event.  Guards record which controls the
component renders: the End Session and Submit buttons (lines 427, 456)
and the option buttons (line 445) exist only in the session view, which
is rendered only while quizData is present and score is null (lines 292,
413); Retake and New Assessment (lines 498, 504) only in the results
view, rendered once score is non-null.  generate models the success path
of handleGenerate (lines 134-194): fresh question set, cleared answers
and score, timeLeft = 60 seconds per question, timer active. -/
def applyEvent : Event → QuizState → QuizState
  | Event.tick, s => tick s
  | Event.submit, s => if s.score = none then handleSubmitQuiz s else s
  | Event.select qid opt, s =>
      if s.quizData ≠ none ∧ s.score = none then handleAnswerSelect qid opt s else s
  | Event.generate qs, s =>
      { s with quizData := some qs, userAnswers := [], score := none,
               timeLeft := 60 * (qs.length : ℤ), isActive := true }
  | Event.retake, s =>
      if s.score ≠ none then
        match s.quizData with
        | some qs =>
            { s with score := none, userAnswers := [],
                     timeLeft := 60 * (qs.length : ℤ), isActive := true }
        | none => s
      else s
  | Event.newAssessment, s =>
      if s.score ≠ none then
        { s with quizData := none, score := none, userAnswers := [] }
      else s

/-- One step of the session: the event handler runs, then React re-runs
the effects of the new state; the only state-changing effect is the
time-up detection. -/
def step (e : Event) (s : QuizState) : QuizState := timeUpEffect (applyEvent e s)

/-- The state after a sequence of events from page load. -/
def run (evs : List Event) : QuizState :=
  evs.foldl (fun s e => step e s) initialState

/-- The states the component can actually be in. -/
def Reachable (s : QuizState) : Prop := ∃ evs, run evs = s

/-- isExpired of the session clock contract: remaining time ≤ 0. -/
def isExpired (s : QuizState) : Bool := decide (s.timeLeft ≤ 0)

/-- The two scoring paths are the same computation. -/
lemma computeScoreTimeout_eq (qs : List Question) (am : AnswerMap) :
    computeScoreTimeout qs am = computeScoreSubmit qs am := rfl

/-- The state invariant maintained by every step: an active session has no
score yet and positive remaining time, remaining time is never negative,
and a stored score is the score of the current question set against the
current answers. -/
def Inv (s : QuizState) : Prop :=
  (s.isActive = true → s.score = none) ∧
  0 ≤ s.timeLeft ∧
  (s.isActive = true → 0 < s.timeLeft) ∧
  (∀ v, s.score = some v →
    ∃ qs, s.quizData = some qs ∧ v = computeScoreSubmit qs s.userAnswers)

/-- What an event handler guarantees before the effects re-run: the same
as Inv except that remaining time may have just reached zero while the
session is still marked active (the time-up effect then fires). -/
def Pre (s : QuizState) : Prop :=
  (s.isActive = true → s.score = none) ∧
  0 ≤ s.timeLeft ∧
  (∀ v, s.score = some v →
    ∃ qs, s.quizData = some qs ∧ v = computeScoreSubmit qs s.userAnswers)

lemma inv_pre {s : QuizState} (h : Inv s) : Pre s :=
  ⟨h.1, h.2.1, h.2.2.2⟩

lemma timeUpEffect_inv {s : QuizState} (h : Pre s) : Inv (timeUpEffect s) := by
  obtain ⟨h0, h1, h3⟩ := h
  unfold timeUpEffect
  by_cases hg : s.isActive = true ∧ s.timeLeft ≤ 0 ∧ s.score = none
  · rw [if_pos hg]
    cases hqd : s.quizData with
    | some qs =>
        refine ⟨by simp, by simpa using h1, by simp, ?_⟩
        intro v hv
        simp only at hv
        refine ⟨qs, by simp [hqd], ?_⟩
        have hvv : computeScoreTimeout qs s.userAnswers = v := by simpa using hv
        rw [← hvv, computeScoreTimeout_eq]
    | none =>
        refine ⟨by simp, by simpa using h1, by simp, ?_⟩
        intro v hv
        simp only at hv
        exact absurd hv (by simp [hg.2.2])
  · rw [if_neg hg]
    refine ⟨h0, h1, ?_, h3⟩
    intro ha
    by_contra hle
    exact hg ⟨ha, by omega, h0 ha⟩

lemma applyEvent_pre {s : QuizState} (e : Event) (h : Inv s) : Pre (applyEvent e s) := by
  obtain ⟨i1, i2, i3, i4⟩ := h
  cases e with
  | tick =>
      simp only [applyEvent, tick]
      by_cases ha : s.isActive = true
      · rw [if_pos (by simpa using ha)]
        refine ⟨fun _ => by simpa using i1 ha, ?_, ?_⟩
        · have := i3 ha; simp only; omega
        · intro v hv
          obtain ⟨qs, hq, hs⟩ := i4 v (by simpa using hv)
          exact ⟨qs, by simpa using hq, hs⟩
      · rw [if_neg (by simpa using ha)]
        exact ⟨i1, i2, i4⟩
  | submit =>
      simp only [applyEvent]
      by_cases hs : s.score = none
      · rw [if_pos hs]
        unfold handleSubmitQuiz
        cases hqd : s.quizData with
        | none => exact ⟨i1, i2, i4⟩
        | some qs =>
            refine ⟨by simp, by simpa using i2, ?_⟩
            intro v hv
            simp only [Option.some.injEq] at hv
            exact ⟨qs, by simp, hv.symm⟩
      · rw [if_neg hs]
        exact ⟨i1, i2, i4⟩
  | select qid opt =>
      simp only [applyEvent]
      by_cases hg : s.quizData ≠ none ∧ s.score = none
      · rw [if_pos hg]
        unfold handleAnswerSelect
        rw [if_neg (by simp [hg.2])]
        refine ⟨fun _ => by simpa using hg.2, by simpa using i2, ?_⟩
        intro v hv
        simp only at hv
        exact absurd hv (by simp [hg.2])
      · rw [if_neg hg]
        exact ⟨i1, i2, i4⟩
  | generate qs =>
      simp only [applyEvent]
      refine ⟨by simp, by positivity, ?_⟩
      intro v hv
      simp only at hv
      exact absurd hv (by simp)
  | retake =>
      simp only [applyEvent]
      by_cases hs : s.score ≠ none
      · rw [if_pos hs]
        cases hqd : s.quizData with
        | none => exact ⟨i1, i2, i4⟩
        | some qs =>
            refine ⟨by simp, by positivity, ?_⟩
            intro v hv
            simp only at hv
            exact absurd hv (by simp)
      · rw [if_neg hs]
        exact ⟨i1, i2, i4⟩
  | newAssessment =>
      simp only [applyEvent]
      by_cases hs : s.score ≠ none
      · rw [if_pos hs]
        refine ⟨by simp, by simpa using i2, ?_⟩
        intro v hv
        simp only at hv
        exact absurd hv (by simp)
      · rw [if_neg hs]
        exact ⟨i1, i2, i4⟩

lemma inv_step {s : QuizState} (e : Event) (h : Inv s) : Inv (step e s) :=
  timeUpEffect_inv (applyEvent_pre e h)

lemma inv_initial : Inv initialState := by
  refine ⟨by simp [initialState], by simp [initialState], by simp [initialState], ?_⟩
  intro v hv
  simp [initialState] at hv

lemma inv_foldl : ∀ (evs : List Event) (s : QuizState), Inv s →
    Inv (evs.foldl (fun t e => step e t) s) := by
  intro evs
  induction evs with
  | nil => intro s h; exact h
  | cons e rest ih =>
      intro s h
      exact ih (step e s) (inv_step e h)

/-- Every reachable component state satisfies the invariant. -/
lemma reach_inv {s : QuizState} (h : Reachable s) : Inv s := by
  obtain ⟨evs, hrun⟩ := h
  rw [← hrun]
  exact inv_foldl evs initialState inv_initial

/-- First question of the concrete scenario of the spec (section 8). -/
def exQ1 : Question :=
  { id := 1, question := "Q1", options := ["A", "B"], answer := some "A" }

/-- Second question of the concrete scenario of the spec (section 8). -/
def exQ2 : Question :=
  { id := 2, question := "Q2", options := ["C", "D"], answer := some "D" }

/-- A question whose canonical answer is the string Paris. -/
def parisQ : Question :=
  { id := 1, question := "Capital of France?", options := ["Paris", "Rome"],
    answer := some "Paris" }

/-- A malformed question: the canonical answer X is not among the offered
options. -/
def malformedQ : Question :=
  { id := 1, question := "Q", options := ["A", "B"], answer := some "X" }

/-- The same question with X among its options, hence well formed. -/
def wellformedQ : Question :=
  { id := 1, question := "Q", options := ["A", "B", "X"], answer := some "X" }

/-- A question whose answer field is absent. -/
def noAnswerQ : Question :=
  { id := 1, question := "Q", options := ["A", "B"], answer := none }

/-- A 40-question set of which the first 23 have canonical answer A and
the rest B. -/
def qs40 : List Question :=
  (List.range 40).map (fun i =>
    { id := i, question := "Q", options := ["A", "B"],
      answer := some (if i < 23 then "A" else "B") })

/-- Answers selecting A on every one of the 40 questions: exactly 23 are
correct. -/
def am40 : AnswerMap := (List.range 40).map (fun i => (i, "A"))

/-- Modelled from the spec: the round-half-up of 100·c/n demanded by the
spec for the score (score = round(correctCount / N * 100) using standard
round-half-up), as exact integer arithmetic: floor(100·c/n + 1/2). -/
def specRoundHalfUp (c n : ℕ) : ℕ := (200 * c + n) / (2 * n)

/-- The state after generating a one-question quiz and submitting at
once. -/
def finalizedDemo : QuizState := run [Event.generate [exQ1], Event.submit]

/-- A session clock started with five time units: SessionState Active,
remaining = 5 (the start(totalUnits) operation of the clock contract). -/
def startFive : QuizState :=
  { quizData := some [exQ1], userAnswers := [], score := none,
    timeLeft := 5, isActive := true }

/-- The clock of startFive after five delivered ticks. -/
def afterFiveTicks : QuizState :=
  step Event.tick (step Event.tick (step Event.tick (step Event.tick
    (step Event.tick startFive))))

/-- An active unscored session whose countdown has just reached zero. -/
def timedOut : QuizState :=
  { quizData := some [exQ1], userAnswers := [], score := none,
    timeLeft := 0, isActive := true }

lemma lookupAnswer_insert_self (am : AnswerMap) (k : ℕ) (v : String) :
    lookupAnswer (insertAnswer am k v) k = some v := by
  unfold lookupAnswer insertAnswer
  simp

lemma lookupAnswer_insert_ne (am : AnswerMap) (k : ℕ) (v : String) (k2 : ℕ)
    (h : k2 ≠ k) :
    lookupAnswer (insertAnswer am k v) k2 = lookupAnswer am k2 := by
  unfold lookupAnswer insertAnswer
  have hhead : ((k, v).fst == k2) = false := by
    simp only [beq_eq_false_iff_ne, ne_eq]
    exact fun hc => h (hc.symm)
  rw [List.find?_cons_of_neg _ (by simp [hhead])]
  congr 1
  induction am with
  | nil => simp
  | cons p rest ih =>
      by_cases hp : p.fst == k
      · rw [List.filter_cons_of_neg (by simp [hp])]
        have hpne : (p.fst == k2) = false := by
          simp only [beq_eq_false_iff_ne, ne_eq]
          intro hc
          rw [← hc] at h
          simp only [beq_iff_eq] at hp
          exact h hp
        rw [List.find?_cons_of_neg _ (by simp [hpne]), ih]
      · rw [List.filter_cons_of_pos (by simp [hp])]
        by_cases hp2 : (p.fst == k2) = true
        · rw [List.find?_cons_of_pos _ (by simp [hp2]),
            List.find?_cons_of_pos _ (by simp [hp2])]
        · rw [List.find?_cons_of_neg _ (by simpa using hp2),
            List.find?_cons_of_neg _ (by simpa using hp2), ih]

lemma foldl_count_le (am : AnswerMap) :
    ∀ (qs : List Question) (acc : ℕ),
      qs.foldl (fun a q => if isCorrectSubmit am q then a + 1 else a) acc ≤
        acc + qs.length := by
  intro qs
  induction qs with
  | nil => intro acc; simp
  | cons q rest ih =>
      intro acc
      simp only [List.foldl_cons, List.length_cons]
      by_cases hq : isCorrectSubmit am q
      · rw [if_pos hq]
        have := ih (acc + 1)
        omega
      · rw [if_neg hq]
        have := ih acc
        omega

lemma correctCountSubmit_le (qs : List Question) (am : AnswerMap) :
    correctCountSubmit qs am ≤ qs.length := by
  have := foldl_count_le am qs 0
  simpa [correctCountSubmit] using this

lemma computeScoreSubmit_ok (qs : List Question) (am : AnswerMap)
    (h : qs ≠ []) :
    computeScoreSubmit qs am =
      ScoreVal.score (jsScoreND (correctCountSubmit qs am) qs.length) := by
  unfold computeScoreSubmit jsScoreNum
  rw [if_neg (by simpa using List.length_pos.mpr h |>.ne')]

/-- C1: Finalization happens exactly once per session even when the
timeout trigger and the manual-submit trigger both fire: a trigger that
observes the session still unscored performs the scoring, while on a
reachable finalized state the time-up effect and the submit event are
no-ops and even a direct call of handleSubmitQuiz leaves the stored
score value unchanged (the answer map is frozen after finalization, so
recomputation gives the same score). -/
theorem exactlyOnce_finalization :
    (∀ s v, Reachable s → s.score = some v →
      timeUpEffect s = s ∧ step Event.submit s = s ∧
      (handleSubmitQuiz s).score = some v) ∧
    (∀ s qs, s.score = none → s.quizData = some qs →
      (handleSubmitQuiz s).score = some (computeScoreSubmit qs s.userAnswers) ∧
      (s.isActive = true → s.timeLeft ≤ 0 →
        (timeUpEffect s).score = some (computeScoreTimeout qs s.userAnswers))) := by
  constructor
  · intro s v hr hs
    have hte : timeUpEffect s = s := by
      unfold timeUpEffect
      rw [if_neg (by simp [hs])]
    refine ⟨hte, ?_, ?_⟩
    · show timeUpEffect (applyEvent Event.submit s) = s
      have : applyEvent Event.submit s = s := by
        simp only [applyEvent]
        rw [if_neg (by simp [hs])]
      rw [this, hte]
    · obtain ⟨qs, hqd, hv⟩ := (reach_inv hr).2.2.2 v hs
      unfold handleSubmitQuiz
      rw [hqd]
      simp [hv]
  · intro s qs h0 hqd
    constructor
    · unfold handleSubmitQuiz
      rw [hqd]
    · intro ha ht
      unfold timeUpEffect
      rw [if_pos ⟨ha, ht, h0⟩, hqd]

/-- Witness for C1 at a concrete finalized session. -/
theorem exactlyOnce_finalization_witness :
    (timeUpEffect finalizedDemo = finalizedDemo ∧
      step Event.submit finalizedDemo = finalizedDemo ∧
      (handleSubmitQuiz finalizedDemo).score = some (ScoreVal.score 0)) ∧
    (handleSubmitQuiz timedOut).score =
      some (computeScoreSubmit [exQ1] timedOut.userAnswers) ∧
    (timeUpEffect timedOut).score =
      some (computeScoreTimeout [exQ1] timedOut.userAnswers) :=
  ⟨exactlyOnce_finalization.1 finalizedDemo (ScoreVal.score 0)
      ⟨[Event.generate [exQ1], Event.submit], rfl⟩ (by decide),
    (exactlyOnce_finalization.2 timedOut [exQ1] rfl rfl).1,
    (exactlyOnce_finalization.2 timedOut [exQ1] rfl rfl).2 rfl (by decide)⟩

/-- C5: The session clock never goes negative: every reachable state has
nonnegative remaining time, a tick delivered while not active is a no-op,
and concretely a clock started with five units is expired with remaining
time exactly 0 after five ticks, a sixth tick changing nothing. -/
theorem clock_never_negative :
    (∀ s, Reachable s → 0 ≤ s.timeLeft) ∧
    (∀ s, s.isActive = false → tick s = s) ∧
    afterFiveTicks.timeLeft = 0 ∧ isExpired afterFiveTicks = true ∧
    afterFiveTicks.isActive = false ∧
    (step Event.tick afterFiveTicks).timeLeft = 0 ∧
    tick afterFiveTicks = afterFiveTicks := by
  refine ⟨fun s hr => (reach_inv hr).2.1, ?_, by decide, by decide, by decide,
    by decide, by decide⟩
  intro s ha
  unfold tick
  rw [ha]
  simp

/-- Witness for C5 at a concrete reachable state and a concrete inactive
state. -/
theorem clock_never_negative_witness :
    0 ≤ (run [Event.generate [exQ1]]).timeLeft ∧
    tick initialState = initialState :=
  ⟨clock_never_negative.1 (run [Event.generate [exQ1]])
      ⟨[Event.generate [exQ1]], rfl⟩,
    clock_never_negative.2.1 initialState rfl⟩

/-- C2 counterexample: no EmptyQuestionSet error is signalled anywhere.
The handleGenerate validation accepts an empty questions array, the
session then immediately finalizes, and the stored score is NaN (from
0/0), a value, not a surfaced error; it is neither 0 nor 100. -/
theorem empty_set_no_error_cex :
    questionsFieldValid (some []) = true ∧
    step (Event.generate []) initialState =
      { quizData := some [], userAnswers := [], score := some ScoreVal.nan,
        timeLeft := 0, isActive := false } ∧
    (ScoreVal.nan == ScoreVal.score 0) = false ∧
    (ScoreVal.nan == ScoreVal.score 100) = false := by
  decide

/-- C2 amended: scoring a question set with zero questions yields NaN
(JavaScript 0/0) on both scoring paths; NaN is stored as the score, fails
the pass check, and is distinct from every integer score, in particular
0 and 100; no error is signalled to the caller. -/
theorem empty_set_yields_nan :
    (∀ am, computeScoreSubmit [] am = ScoreVal.nan ∧
      computeScoreTimeout [] am = ScoreVal.nan) ∧
    passedOf ScoreVal.nan = false ∧
    (∀ k, (ScoreVal.nan == ScoreVal.score k) = false) := by
  refine ⟨fun am => ⟨rfl, rfl⟩, rfl, fun k => ?_⟩
  rfl

/-- C3 counterexample: the claimed identity score = round-half-up of
100·correctCount/N fails at correctCount 23 of N 40: the binary64
evaluation of (23/40)*100 is just below 57.5 and Math.round gives 57,
while round-half-up of the exact ratio gives 58. -/
theorem rounding_halfup_cex :
    qs40.length = 40 ∧ correctCountSubmit qs40 am40 = 23 ∧
    computeScoreSubmit qs40 am40 = ScoreVal.score 57 ∧
    specRoundHalfUp 23 40 = 58 ∧
    (computeScoreSubmit qs40 am40 == ScoreVal.score (specRoundHalfUp 23 40)) =
      false := by
  decide

/-- C3 amended: for every question set with at least one question and
every answer map the computed score is an integer between 0 and 100 and
passed holds exactly when the score is at least 50; the score is
Math.round of the binary64 evaluation of correctCount/N*100, which can
differ from round-half-up of the exact ratio at half-way ratios (23 of 40
gives 57, not 58); on the concrete scenario 1 correct of 2 the score is
50 and passed holds. -/
theorem score_bounds_binary64 :
    (∀ qs am, 1 ≤ qs.length →
      ∃ k, computeScoreSubmit qs am = ScoreVal.score k ∧ k ≤ 100 ∧
        (passedOf (computeScoreSubmit qs am) = true ↔ 50 ≤ k)) ∧
    computeScoreSubmit [exQ1, exQ2] [(1, "A"), (2, "C")] = ScoreVal.score 50 ∧
    passedOf (computeScoreSubmit [exQ1, exQ2] [(1, "A"), (2, "C")]) = true := by
  refine ⟨?_, by decide, by decide⟩
  intro qs am hlen
  have hne : qs ≠ [] := by
    intro hc
    rw [hc] at hlen
    simp at hlen
  have hok := computeScoreSubmit_ok qs am hne
  refine ⟨jsScoreND (correctCountSubmit qs am) qs.length, hok, ?_, ?_⟩
  · exact jsScoreND_le100 _ _ hlen (correctCountSubmit_le qs am)
  · rw [hok]
    unfold passedOf
    exact decide_eq_true_iff

/-- Witness for C3 at the concrete two-question scenario. -/
theorem score_bounds_binary64_witness :
    ∃ k, computeScoreSubmit [exQ1, exQ2] [(1, "A"), (2, "C")] =
        ScoreVal.score k ∧ k ≤ 100 ∧
      (passedOf (computeScoreSubmit [exQ1, exQ2] [(1, "A"), (2, "C")]) = true ↔
        50 ≤ k) :=
  score_bounds_binary64.1 [exQ1, exQ2] [(1, "A"), (2, "C")] (by decide)

/-- C4: a selected answer is correct exactly when it equals the canonical
answer after trimming both sides, comparison otherwise exact and case
sensitive; a missing entry counts as incorrect for a question that
carries a canonical answer, and scoring never fails on a nonempty set:
" Paris " matches Paris, and paris does not. -/
theorem answer_comparison_rule :
    (∀ am q a u, q.answer = some a → lookupAnswer am q.id = some u →
      (isCorrectSubmit am q = true ↔ jsTrim u = jsTrim a)) ∧
    (∀ am q a, q.answer = some a → lookupAnswer am q.id = none →
      isCorrectSubmit am q = false) ∧
    jsTrim " Paris " = "Paris" ∧
    isCorrectSubmit [(1, " Paris ")] parisQ = true ∧
    isCorrectSubmit [(1, "paris")] parisQ = false ∧
    (∀ qs am, qs ≠ [] → ∃ k, computeScoreSubmit qs am = ScoreVal.score k) := by
  refine ⟨?_, ?_, by decide, by decide, by decide, ?_⟩
  · intro am q a u ha hl
    unfold isCorrectSubmit
    rw [hl, ha]
    simp
  · intro am q a ha hl
    unfold isCorrectSubmit
    rw [hl, ha]
  · intro qs am hne
    exact ⟨_, computeScoreSubmit_ok qs am hne⟩

/-- Witness for C4 at the Paris question. -/
theorem answer_comparison_rule_witness :
    (isCorrectSubmit [(1, " Paris ")] parisQ = true ↔
      jsTrim " Paris " = jsTrim "Paris") ∧
    isCorrectSubmit [] parisQ = false ∧
    (∃ k, computeScoreSubmit [parisQ] [] = ScoreVal.score k) :=
  ⟨answer_comparison_rule.1 [(1, " Paris ")] parisQ "Paris" " Paris " rfl rfl,
    answer_comparison_rule.2.1 [] parisQ "Paris" rfl rfl,
    answer_comparison_rule.2.2.2.2.2 [parisQ] [] (by decide)⟩

/-- C6 counterexample: no MalformedQuestion condition exists.  On a
question whose canonical answer X is absent from its own options the
engine produces exactly the output it produces on the corresponding well
formed question: an ordinary string-equality miss, with nothing flagged.
-/
theorem malformed_no_flag_cex :
    malformedQ.answer = some "X" ∧ malformedQ.options.contains "X" = false ∧
    wellformedQ.answer = some "X" ∧ wellformedQ.options.contains "X" = true ∧
    computeScoreSubmit [malformedQ] [(1, "A")] =
      computeScoreSubmit [wellformedQ] [(1, "A")] ∧
    computeScoreSubmit [malformedQ] [(1, "A")] = ScoreVal.score 0 := by
  decide

/-- C6 amended: the engine performs no malformed-question check and does
not crash: the per-question comparison depends only on the question id
and answer fields, never on whether the answer is among the options, so a
malformed question falls through to the ordinary trimmed string
comparison (an always-incorrect miss for any option the interface can
offer). -/
theorem malformed_question_fallthrough :
    (∀ am q1 q2, q1.id = q2.id → q1.answer = q2.answer →
      isCorrectSubmit am q1 = isCorrectSubmit am q2) ∧
    (∀ qs am, qs ≠ [] → ∃ k, computeScoreSubmit qs am = ScoreVal.score k) ∧
    computeScoreSubmit [malformedQ] [(1, "A")] = ScoreVal.score 0 := by
  refine ⟨?_, ?_, by decide⟩
  · intro am q1 q2 hid hans
    unfold isCorrectSubmit
    rw [hid, hans]
  · intro qs am hne
    exact ⟨_, computeScoreSubmit_ok qs am hne⟩

/-- Witness for C6 comparing the malformed question with its repaired
twin. -/
theorem malformed_question_fallthrough_witness :
    isCorrectSubmit [(1, "A")] malformedQ = isCorrectSubmit [(1, "A")] wellformedQ ∧
    (∃ k, computeScoreSubmit [malformedQ] [(1, "A")] = ScoreVal.score k) :=
  ⟨malformed_question_fallthrough.1 [(1, "A")] malformedQ wellformedQ rfl rfl,
    malformed_question_fallthrough.2.1 [malformedQ] [(1, "A")] (by decide)⟩

/-- C7: scoring is a pure, deterministic, total function of the question
set and answer map: it never fails on a nonempty set, handleSubmitQuiz
leaves the question set, the answer map and the clock untouched, equal
inputs give equal scores and pass outcomes, and submitting twice is the
same as submitting once. -/
theorem scoring_pure_total :
    (∀ qs am, qs ≠ [] → ∃ k, computeScoreSubmit qs am = ScoreVal.score k) ∧
    (∀ s, (handleSubmitQuiz s).quizData = s.quizData ∧
      (handleSubmitQuiz s).userAnswers = s.userAnswers ∧
      (handleSubmitQuiz s).timeLeft = s.timeLeft) ∧
    (∀ qs1 qs2 am1 am2, qs1 = qs2 → am1 = am2 →
      computeScoreSubmit qs1 am1 = computeScoreSubmit qs2 am2 ∧
      passedOf (computeScoreSubmit qs1 am1) =
        passedOf (computeScoreSubmit qs2 am2)) ∧
    (∀ s, step Event.submit (step Event.submit s) = step Event.submit s) := by
  refine ⟨?_, ?_, ?_, ?_⟩
  · intro qs am hne
    exact ⟨_, computeScoreSubmit_ok qs am hne⟩
  · intro s
    unfold handleSubmitQuiz
    cases hqd : s.quizData with
    | none => exact ⟨hqd, rfl, rfl⟩
    | some qs => exact ⟨rfl, rfl, rfl⟩
  · intro qs1 qs2 am1 am2 h1 h2
    rw [h1, h2]
    exact ⟨rfl, rfl⟩
  · intro s
    by_cases hs : s.score = none
    · show timeUpEffect (applyEvent Event.submit (step Event.submit s)) =
        step Event.submit s
      cases hqd : s.quizData with
      | some qs =>
          have h1 : step Event.submit s =
              { s with isActive := false,
                       score := some (computeScoreSubmit qs s.userAnswers) } := by
            show timeUpEffect (applyEvent Event.submit s) = _
            simp only [applyEvent]
            rw [if_pos hs]
            unfold handleSubmitQuiz
            rw [hqd]
            unfold timeUpEffect
            rw [if_neg (by simp)]
          rw [h1]
          simp only [applyEvent]
          rw [if_neg (by simp)]
          unfold timeUpEffect
          rw [if_neg (by simp)]
      | none =>
          have happ : applyEvent Event.submit s = s := by
            simp only [applyEvent]
            rw [if_pos hs]
            unfold handleSubmitQuiz
            rw [hqd]
          by_cases hg : s.isActive = true ∧ s.timeLeft ≤ 0 ∧ s.score = none
          · have h1 : step Event.submit s = { s with isActive := false } := by
              show timeUpEffect (applyEvent Event.submit s) = _
              rw [happ]
              unfold timeUpEffect
              rw [if_pos hg, hqd]
            rw [h1]
            simp only [applyEvent]
            rw [if_pos (by simpa using hs)]
            unfold handleSubmitQuiz
            simp only
            rw [hqd]
            unfold timeUpEffect
            rw [if_neg (by simp)]
          · have h1 : step Event.submit s = s := by
              show timeUpEffect (applyEvent Event.submit s) = _
              rw [happ]
              unfold timeUpEffect
              rw [if_neg hg]
            rw [h1, happ]
            unfold timeUpEffect
            rw [if_neg hg]
    · have h1 : step Event.submit s = s := by
        show timeUpEffect (applyEvent Event.submit s) = s
        have happ : applyEvent Event.submit s = s := by
          simp only [applyEvent]
          rw [if_neg hs]
        rw [happ]
        unfold timeUpEffect
        rw [if_neg (by simp [hs])]
      rw [h1, h1]

/-- Witness for C7 at the one-question set. -/
theorem scoring_pure_total_witness :
    (∃ k, computeScoreSubmit [exQ1] [] = ScoreVal.score k) ∧
    computeScoreSubmit [exQ1] [(1, "A")] = computeScoreSubmit [exQ1] [(1, "A")] ∧
    passedOf (computeScoreSubmit [exQ1] [(1, "A")]) =
      passedOf (computeScoreSubmit [exQ1] [(1, "A")]) :=
  ⟨scoring_pure_total.1 [exQ1] [] (by decide),
    scoring_pure_total.2.2.1 [exQ1] [exQ1] [(1, "A")] [(1, "A")] rfl rfl⟩

/-- C8: the automatic-timeout path and the manual-submit path converge on
the same scoring computation: the two transcribed scoring functions agree
on every input (same score, same pass outcome), and from any state where
the time-up trigger fires the stored score equals what handleSubmitQuiz
would store. -/
theorem paths_converge :
    (∀ qs am, computeScoreTimeout qs am = computeScoreSubmit qs am ∧
      passedOf (computeScoreTimeout qs am) = passedOf (computeScoreSubmit qs am)) ∧
    (∀ s qs, s.isActive = true → s.timeLeft ≤ 0 → s.score = none →
      s.quizData = some qs →
      (timeUpEffect s).score = (handleSubmitQuiz s).score) := by
  constructor
  · intro qs am
    exact ⟨computeScoreTimeout_eq qs am, by rw [computeScoreTimeout_eq]⟩
  · intro s qs ha ht h0 hqd
    unfold timeUpEffect handleSubmitQuiz
    rw [if_pos ⟨ha, ht, h0⟩, hqd]
    simp [computeScoreTimeout_eq]

/-- Witness for C8 at a concrete timed-out state. -/
theorem paths_converge_witness :
    computeScoreTimeout [exQ1] [(1, "A")] = computeScoreSubmit [exQ1] [(1, "A")] ∧
    (timeUpEffect timedOut).score = (handleSubmitQuiz timedOut).score :=
  ⟨(paths_converge.1 [exQ1] [(1, "A")]).1,
    paths_converge.2 timedOut [exQ1] rfl (by decide) rfl rfl⟩

/-- C9: while the session is not finalized, selecting an answer
overwrites the previous selection for that question id and leaves every
other id unchanged; once a score exists, answer selection is a no-op. -/
theorem answer_select_frame :
    (∀ s qid opt, s.score = none →
      (handleAnswerSelect qid opt s).userAnswers =
        insertAnswer s.userAnswers qid opt ∧
      lookupAnswer (insertAnswer s.userAnswers qid opt) qid = some opt ∧
      (∀ k, k ≠ qid → lookupAnswer (insertAnswer s.userAnswers qid opt) k =
        lookupAnswer s.userAnswers k)) ∧
    (∀ s qid opt v, s.score = some v → handleAnswerSelect qid opt s = s) := by
  constructor
  · intro s qid opt hs
    refine ⟨?_, lookupAnswer_insert_self _ _ _, ?_⟩
    · unfold handleAnswerSelect
      rw [if_neg (by simp [hs])]
    · intro k hk
      exact lookupAnswer_insert_ne _ _ _ _ hk
  · intro s qid opt v hs
    unfold handleAnswerSelect
    rw [if_pos (by simp [hs])]

/-- Witness for C9 overwriting a previous selection and at a finalized
state. -/
theorem answer_select_frame_witness :
    (handleAnswerSelect 1 "B"
      { initialState with quizData := some [exQ1], userAnswers := [(1, "A")],
                          isActive := true, timeLeft := 60 }).userAnswers =
      insertAnswer [(1, "A")] 1 "B" ∧
    lookupAnswer (insertAnswer [(1, "A")] 1 "B") 1 = some "B" ∧
    lookupAnswer (insertAnswer [(1, "A")] 1 "B") 2 = lookupAnswer [(1, "A")] 2 ∧
    handleAnswerSelect 1 "B" finalizedDemo = finalizedDemo := by
  have h := answer_select_frame.1
    { initialState with quizData := some [exQ1], userAnswers := [(1, "A")],
                        isActive := true, timeLeft := 60 } 1 "B" rfl
  exact ⟨h.1, h.2.1, h.2.2 2 (by decide), answer_select_frame.2 finalizedDemo 1 "B"
    (ScoreVal.score 0) (by decide)⟩

/-- C10: when a question's answer field is absent and the answer map has
no entry for its id, the comparison is undefined === undefined and the
question counts as correct; an unanswered question is counted incorrect
only when the question carries a canonical answer string.  A one-question
set with an absent answer field and no answers scores 100. -/
theorem undefined_answer_correct :
    (∀ am q, q.answer = none → lookupAnswer am q.id = none →
      isCorrectSubmit am q = true) ∧
    (∀ am q a, q.answer = some a → lookupAnswer am q.id = none →
      isCorrectSubmit am q = false) ∧
    computeScoreSubmit [noAnswerQ] [] = ScoreVal.score 100 ∧
    passedOf (computeScoreSubmit [noAnswerQ] []) = true := by
  refine ⟨?_, ?_, by decide, by decide⟩
  · intro am q ha hl
    unfold isCorrectSubmit
    rw [hl, ha]
  · intro am q a ha hl
    unfold isCorrectSubmit
    rw [hl, ha]

/-- Witness for C10 at the question with the absent answer field. -/
theorem undefined_answer_correct_witness :
    isCorrectSubmit [] noAnswerQ = true ∧
    isCorrectSubmit [] exQ1 = false :=
  ⟨undefined_answer_correct.1 [] noAnswerQ rfl rfl,
    undefined_answer_correct.2.1 [] exQ1 "A" rfl rfl⟩

end QuizCore
